import Mathlib

/-!
Shallow embedding of the minisource/scheduler core: the data model
(`internal/models`), the repository layer (`ExecutionRepository`,
`HistoryRepository`, `JobRepository`), the HTTP executor's outcome
classification, the worker pool loop, and the scheduler's execution
state machine (`processJob`, `handleExecutionFailure`,
`CalculateNextRun`, `cleanup`) together with the job service's
`validateSchedule`.

Conventions of the embedding:
* instants are modelled as `Int` seconds (`Time`); durations as `Int`
  milliseconds where the source uses milliseconds;
* the relational tables are lists of rows; a GORM
  `Model(...).Where(...).Updates(...)` is a `List.map` that rewrites
  exactly the rows matched by the `WHERE` clause.  Such a statement
  reports `Error = nil` whenever it executes, *regardless of how many
  rows it matched*; the model is I/O-free, so database errors never
  occur and a caller that only inspects `.Error` always proceeds;
* a GORM `First(...)` lookup is `findExecution` / `findHistory`
  (`none` models `gorm.ErrRecordNotFound`);
* the outbound HTTP exchange is an input (`HttpOutcome`); the
  executor's pure classification of that outcome (`Execute`,
  lines 406-447 of the executor) is `executeClassify`;
* a Go `panic` inside a worker function is modelled as `Except.error`;
  the worker loop has no `recover`, so the error propagates.
-/

namespace MinisourceScheduler

/-- Instants, in seconds (the source uses `time.Time`; only ordering and
second-granularity arithmetic matter to the engine). -/
abbrev Time := Int

/-- Execution status, the seven string constants of
`internal/models` (`ExecutionStatus`). -/
inductive ExecStatus where
  | pending
  | running
  | completed
  | failed
  | retrying
  | cancelled
  | timeout
deriving DecidableEq, Repr

/-- The `models.Job` row (fields the scheduling engine reads; `type` and
`status` are strings in Go, kept as strings so the `switch`/`default`
structure of the source is preserved). -/
structure Job where
  id : Nat
  jobType : String
  status : String
  schedule : String
  timeout : Int
  maxRetries : Int
  retryDelay : Int
  priority : Int
  nextRunAt : Option Time := none
  lastRunAt : Option Time := none
  runCount : Int := 0
  failCount : Int := 0
  updatedAt : Time := 0
deriving DecidableEq, Repr

/-- The `models.JobExecution` row. -/
structure JobExecution where
  id : Nat
  jobId : Nat
  status : ExecStatus
  scheduledAt : Time := 0
  startedAt : Option Time := none
  completedAt : Option Time := none
  duration : Option Int := none
  attempt : Int := 1
  workerId : String := ""
  statusCode : Option Int := none
  response : String := ""
  errorMsg : String := ""
  createdAt : Time := 0
  updatedAt : Time := 0
deriving DecidableEq, Repr

/-- The `models.JobHistory` row.  The `avg_duration_ms` column receives the
`float64` quotient computed by `IncrementSuccess`; the quotient is modelled
exactly, as a rational. -/
structure JobHistory where
  id : Nat
  jobId : Nat
  date : Time
  successCount : Int := 0
  failureCount : Int := 0
  totalDuration : Int := 0
  avgDuration : ℚ := 0
  minDuration : Int := 0
  maxDuration : Int := 0
deriving DecidableEq, Repr

/-- The scheduler configuration (`config.SchedulerConfig`). -/
structure SchedulerConfig where
  workerCount : Int := 10
  maxRetries : Int := 3
  retryDelaySeconds : Int := 60
  lockTTLSeconds : Int := 300
  heartbeatSeconds : Int := 30
  cleanupDays : Int := 30
deriving DecidableEq, Repr

/-- A `First(&execution, "id = ?", id)` lookup on the executions table. -/
def findExecution : List JobExecution → Nat → Option JobExecution
  | [], _ => none
  | e :: es, i => if e.id = i then some e else findExecution es i

/-- A `First(&history, "job_id = ? AND date = ?", jobID, date)` lookup on
the history table. -/
def findHistory : List JobHistory → Nat → Time → Option JobHistory
  | [], _, _ => none
  | h :: hs, j, d => if h.jobId = j ∧ h.date = d then some h else findHistory hs j d

/-- ExecutionRepository.MarkAsRunning (part_007:139-151): conditional
update — rewrites the row only where `id = ? AND status = 'pending'`.
GORM reports no error when zero rows match, so the returned row list is
the only observable. -/
def MarkAsRunning (db : List JobExecution) (id : Nat) (workerId : String)
    (now : Time) : List JobExecution :=
  db.map fun e =>
    if e.id = id ∧ e.status = .pending then
      { e with status := .running, startedAt := some now,
               workerId := workerId, updatedAt := now }
    else e

/-- Duration in milliseconds computed by `MarkAsCompleted` and
`MarkAsFailed`: `now.Sub(*execution.StartedAt).Milliseconds()`, or the Go
zero value when `started_at` is null. -/
def durationMs (startedAt : Option Time) (now : Time) : Int :=
  match startedAt with
  | some s => (now - s) * 1000
  | none => 0

/-- ExecutionRepository.MarkAsCompleted (part_007:154-178): `First` the row
(`none` = record not found, the only error the caller can see), compute
`duration = now - started_at` (0 when `started_at` is null), then update
*unconditionally on status* — the `WHERE` clause matches on `id` alone. -/
def MarkAsCompleted (db : List JobExecution) (id : Nat) (statusCode : Int)
    (response : String) (now : Time) : Option (List JobExecution) :=
  match findExecution db id with
  | none => none
  | some e =>
      some (db.map fun x =>
        if x.id = id then
          { x with status := .completed, completedAt := some now,
                   duration := some (durationMs e.startedAt now),
                   statusCode := some statusCode,
                   response := response, updatedAt := now }
        else x)

/-- ExecutionRepository.MarkAsFailed (part_007:181-210): `First` the row
(on record-not-found the caller discards the error, so the table is
returned unchanged), compute the duration, then update unconditionally on
status; `status_code` is written only when the pointer is non-nil. -/
def MarkAsFailed (db : List JobExecution) (id : Nat) (errMsg : String)
    (statusCode : Option Int) (now : Time) : List JobExecution :=
  match findExecution db id with
  | none => db
  | some e =>
      db.map fun x =>
        if x.id = id then
          let x1 := { x with status := ExecStatus.failed,
                             completedAt := some now,
                             duration := some (durationMs e.startedAt now),
                             errorMsg := errMsg, updatedAt := now }
          match statusCode with
          | some c => { x1 with statusCode := some c }
          | none => x1
        else x

/-- ExecutionRepository.MarkAsRetrying (part_007:213-223): unconditional
update on `id` — sets `status = 'retrying'`, records the error and
atomically increments `attempt`. -/
def MarkAsRetrying (db : List JobExecution) (id : Nat) (errMsg : String)
    (now : Time) : List JobExecution :=
  db.map fun e =>
    if e.id = id then
      { e with status := .retrying, errorMsg := errMsg,
               attempt := e.attempt + 1, updatedAt := now }
    else e

/-- ExecutionRepository.CancelExecution (part_007:226-236): conditional
update — only rows with `status IN ('pending','running')` become
`cancelled`. -/
def CancelExecution (db : List JobExecution) (id : Nat) (now : Time) :
    List JobExecution :=
  db.map fun e =>
    if e.id = id ∧ (e.status = .pending ∨ e.status = .running) then
      { e with status := .cancelled, completedAt := some now, updatedAt := now }
    else e

/-- ExecutionRepository.CleanupOld (part_007:239-249): deletes the rows
with `created_at < before` whose status is in the literal list
`completed, failed, cancelled` — the `timeout` status is not in the
list. -/
def CleanupOld (db : List JobExecution) (before : Time) : List JobExecution :=
  db.filter fun e =>
    ¬(e.createdAt < before ∧
      (e.status = .completed ∨ e.status = .failed ∨ e.status = .cancelled))

/-- HistoryRepository.CleanupOld: deletes history rows with `date < before`. -/
def HistoryCleanupOld (hs : List JobHistory) (before : Time) : List JobHistory :=
  hs.filter fun h => ¬(h.date < before)

/-- JobRepository.UpdateLastRunAt (part_005): sets `last_run_at`, and
increments `run_count` on success or `fail_count` on failure via a SQL
expression. -/
def UpdateLastRunAt (jobs : List Job) (id : Nat) (success : Bool)
    (now : Time) : List Job :=
  jobs.map fun j =>
    if j.id = id then
      if success then
        { j with lastRunAt := some now, updatedAt := now, runCount := j.runCount + 1 }
      else
        { j with lastRunAt := some now, updatedAt := now, failCount := j.failCount + 1 }
    else j

/-- Truncation of an instant to its UTC date, as in
`time.Date(date.Year(), date.Month(), date.Day(), 0, 0, 0, 0, time.UTC)`,
on the seconds model (nonnegative instants). -/
def dateOnly (t : Time) : Time := t - t % 86400

/-- HistoryRepository.IncrementSuccess (repository source in
job_handler.go): look the `(job_id, date)` row up; when absent, insert a
fresh row with `SuccessCount = 1`, the duration as total/min/max and the
Go zero value (0) for the unset `AvgDuration`; when present, set
`success_count = old + 1`, `total_duration += d`,
`avg = float64(total) / float64(newCount + FailureCount)` (modelled as the
exact rational), `min` treating 0 as unset, and `max`.  `newId` stands for
the `uuid.New()` of the insert branch. -/
def IncrementSuccess (hs : List JobHistory) (jobId : Nat) (date : Time)
    (duration : Int) (newId : Nat) : List JobHistory :=
  let d := dateOnly date
  match findHistory hs jobId d with
  | none =>
      hs ++ [{ id := newId, jobId := jobId, date := d, successCount := 1,
               failureCount := 0, totalDuration := duration, avgDuration := 0,
               minDuration := duration, maxDuration := duration }]
  | some h =>
      let newCount := h.successCount + 1
      let total := h.totalDuration + duration
      let avg : ℚ := (total : ℚ) / ((newCount + h.failureCount : Int) : ℚ)
      let minD := if duration < h.minDuration ∨ h.minDuration = 0 then duration else h.minDuration
      let maxD := if duration > h.maxDuration then duration else h.maxDuration
      hs.map fun x =>
        if x.id = h.id then
          { x with successCount := newCount, totalDuration := total,
                   avgDuration := avg, minDuration := minD, maxDuration := maxD }
        else x

/-- HistoryRepository.IncrementFailure (repository source in
job_handler.go): look the `(job_id, date)` row up; when absent, insert a
fresh row with `FailureCount = 1` and Go zero values elsewhere; when
present, update the single column `failure_count = failure_count + 1`. -/
def IncrementFailure (hs : List JobHistory) (jobId : Nat) (date : Time)
    (newId : Nat) : List JobHistory :=
  let d := dateOnly date
  match findHistory hs jobId d with
  | none =>
      hs ++ [{ id := newId, jobId := jobId, date := d, successCount := 0,
               failureCount := 1, totalDuration := 0, avgDuration := 0,
               minDuration := 0, maxDuration := 0 }]
  | some h =>
      hs.map fun x =>
        if x.id = h.id then { x with failureCount := x.failureCount + 1 } else x

/-! The HTTP executor's outcome classification. -/

/-- Outcome of the single outbound HTTP exchange performed by
`Executor.Execute`: either a transport-level error (connect, read, or the
per-attempt context deadline elapsing) or a response with a status
code. -/
inductive HttpOutcome where
  | transport (errMsg : String) (duration : Int)
  | response (statusCode : Int) (body : String) (duration : Int)
deriving DecidableEq, Repr

/-- The `ExecutionResult` produced by `Executor.Execute`. -/
structure ExecutionResult where
  statusCode : Int := 0
  body : String := ""
  duration : Int := 0
  errorMsg : String := ""
deriving DecidableEq, Repr

/-- Error text `"HTTP <code>: <reason>"` synthesised for status codes
`>= 400` (the `http.StatusText` reason is a fixed table lookup, carried
here as the code alone). -/
def httpErrorText (code : Int) : String := "HTTP " ++ toString code

/-- Executor.Execute (executor source, lines 406-447), as the pure
classification of the HTTP outcome into `(result, err)`.  A transport
error yields `status_code = 0` and a non-nil error; a response with
status `>= 400` yields a non-nil `"HTTP <code>"` error; a response with
status `< 400` yields a nil error.  The result pointer is non-nil on
every path. -/
def executeClassify (o : HttpOutcome) : ExecutionResult × Option String :=
  match o with
  | .transport msg dur =>
      ({ statusCode := 0, body := "", duration := dur, errorMsg := msg }, some msg)
  | .response code body dur =>
      if code ≥ 400 then
        ({ statusCode := code, body := body, duration := dur,
           errorMsg := httpErrorText code }, some (httpErrorText code))
      else
        ({ statusCode := code, body := body, duration := dur, errorMsg := "" }, none)

/-- Executor.isRetryable (executor source, lines 517-534): a nil result
(network error) is retryable, `>= 500` is retryable, `429` is retryable,
any other client error is not. -/
def isRetryable (result : Option ExecutionResult) : Bool :=
  match result with
  | none => true
  | some r =>
      if r.statusCode ≥ 500 then true
      else if r.statusCode = 429 then true
      else false

/-! The scheduler's execution state machine. -/

/-- The tables the state machine touches. -/
structure St where
  jobs : List Job
  executions : List JobExecution
  histories : List JobHistory
deriving DecidableEq, Repr

/-- A `JobTask` submitted to the worker pool. -/
structure JobTask where
  job : Job
  execution : JobExecution
deriving DecidableEq, Repr

/-- Side effects of one `processJob` run that are not table writes: the
outbound HTTP call, and the `time.AfterFunc` retry resubmission (with its
delay and the attempt number the resubmitted task will carry). -/
inductive Effect where
  | httpCall (jobId : Nat)
  | scheduleRetry (delaySeconds : Int) (nextAttempt : Int)
deriving DecidableEq, Repr

/-- Scheduler.handleExecutionFailure (scheduler.go:223-248).  The status
code pointer is `&result.StatusCode` (always non-nil here since `Execute`
returns a result on every path).  The branch looks *only* at
`task.Execution.Attempt < task.Job.MaxRetries`: below the bound it marks
the row retrying and schedules a delayed resubmission with the attempt
bumped; at or above it, it marks the row failed, flips the job counters
and increments the history failure count.  `newHistId` stands for the
`uuid.New()` of a potential history insert. -/
def handleExecutionFailure (cfg : SchedulerConfig) (st : St) (task : JobTask)
    (errMsg : String) (statusCode : Option Int) (now : Time) (newHistId : Nat) :
    St × List Effect :=
  if task.execution.attempt < task.job.maxRetries then
    ({ st with executions := MarkAsRetrying st.executions task.execution.id errMsg now },
     [Effect.scheduleRetry cfg.retryDelaySeconds (task.execution.attempt + 1)])
  else
    let exs := MarkAsFailed st.executions task.execution.id errMsg statusCode now
    let jobs := UpdateLastRunAt st.jobs task.job.id false now
    let hists := IncrementFailure st.histories task.job.id now newHistId
    ({ jobs := jobs, executions := exs, histories := hists }, [])

/-- Scheduler.processJob (scheduler.go:179-220).  `MarkAsRunning` is
issued first; its GORM error is nil whenever the statement executes —
also when the conditional update matches zero rows — so the `if err !=
nil` guard in the source never aborts on a lost race and the worker
always proceeds to the HTTP call.  On a nil-error outcome the row is
marked completed (aborting only on record-not-found), the job counters
and today's history are updated; on an error outcome
`handleExecutionFailure` runs. -/
def processJob (cfg : SchedulerConfig) (st : St) (task : JobTask)
    (workerId : String) (outcome : HttpOutcome) (now : Time) (newHistId : Nat) :
    St × List Effect :=
  let st1 : St :=
    { st with executions := MarkAsRunning st.executions task.execution.id workerId now }
  let rp := executeClassify outcome
  match rp.2 with
  | some errMsg =>
      let r := handleExecutionFailure cfg st1 task errMsg (some rp.1.statusCode) now newHistId
      (r.1, Effect.httpCall task.job.id :: r.2)
  | none =>
      match MarkAsCompleted st1.executions task.execution.id rp.1.statusCode rp.1.body now with
      | none => (st1, [Effect.httpCall task.job.id])
      | some exs =>
          let st2 : St := { st1 with executions := exs }
          let st3 : St := { st2 with jobs := UpdateLastRunAt st2.jobs task.job.id true now }
          let st4 : St :=
            { st3 with histories :=
                IncrementSuccess st3.histories task.job.id now rp.1.duration newHistId }
          (st4, [Effect.httpCall task.job.id])

/-- Scheduler.cleanup (scheduler.go:286-290): `cutoff = now` minus
`CleanupDays` days, then the two repository cleanups. -/
def cleanupCutoff (now : Time) (days : Int) : Time := now - days * 86400

/-- Scheduler.cleanup applied to the state. -/
def cleanup (st : St) (now : Time) (days : Int) : St :=
  { st with executions := CleanupOld st.executions (cleanupCutoff now days),
            histories := HistoryCleanupOld st.histories (cleanupCutoff now days) }

/-! The schedule calculator and the job service's validation. -/

/-- A parsed cron schedule; `next` is `robfig/cron`'s `Schedule.Next`,
which returns the next activation instant strictly after its argument. -/
structure CronSchedule where
  next : Time → Time

/-- Scheduler.CalculateNextRun (scheduler.go:293-320), parametrised over
the cron parser (`s.cronParser.Parse`) and the JSON integer decoder
(`json.Unmarshal` into a Go `int`), both external library calls.  Cron:
parse, then the first tick after `now`; interval: the decoded integer `N`
gives `now + N` seconds; one-time: no next run; any other type: error. -/
def CalculateNextRun (cronParse : String → Option CronSchedule)
    (jsonIntUnmarshal : String → Option Int) (job : Job) (now : Time) :
    Except String (Option Time) :=
  if job.jobType = "cron" then
    match cronParse job.schedule with
    | none => .error "invalid cron expression"
    | some s => .ok (some (s.next now))
  else if job.jobType = "interval" then
    match jsonIntUnmarshal job.schedule with
    | none => .error "invalid interval"
    | some n => .ok (some (now + n))
  else if job.jobType = "one_time" then
    .ok none
  else
    .error ("unknown job type: " ++ job.jobType)

/-- JobService.validateSchedule (service source, lines 343-363),
parametrised over the same cron parser and JSON integer decoder.  Cron
must parse; an interval must decode and be at least 1; one-time needs no
validation; any other type is rejected. -/
def validateSchedule (cronParse : String → Option CronSchedule)
    (jsonIntUnmarshal : String → Option Int) (jobType schedule : String) :
    Except String Unit :=
  if jobType = "cron" then
    match cronParse schedule with
    | none => .error "invalid cron expression"
    | some _ => .ok ()
  else if jobType = "interval" then
    match jsonIntUnmarshal schedule with
    | none => .error "invalid interval (should be seconds as integer)"
    | some n =>
        if n < 1 then .error "interval must be at least 1 second" else .ok ()
  else if jobType = "one_time" then
    .ok ()
  else
    .error ("unknown job type: " ++ jobType)

/-- Whether an `Except` is a success. -/
def exceptOk {ε α : Type} : Except ε α → Bool
  | .ok _ => true
  | .error _ => false

/-! The worker pool loop. -/

/-- WorkerPool.worker (pool source, lines 330-344): the worker drains its
queue, invoking `p.workerFunc(task)` on each task with no `recover`
around the call.  A Go panic in the worker function is modelled as
`Except.error`; the bare call means it propagates out of the loop. -/
def workerRun (workerFunc : JobTask → Except String Unit) :
    List JobTask → Except String Unit
  | [] => .ok ()
  | t :: ts =>
      match workerFunc t with
      | .ok _ => workerRun workerFunc ts
      | .error msg => .error msg

/-- First tick of a cron schedule strictly after `now`, for a matching
predicate on instants: `t` is after `now`, matches, and no earlier
matching instant lies after `now`. -/
def IsFirstTickAfter (fires : Time → Prop) (now t : Time) : Prop :=
  now < t ∧ fires t ∧ ∀ u, now < u → fires u → t ≤ u

/-! Shared concrete rows used by witnesses and counterexamples. -/

/-- A sample interval job. -/
def job0 : Job :=
  { id := 7, jobType := "interval", status := "active", schedule := "300",
    timeout := 30, maxRetries := 3, retryDelay := 60, priority := 5 }

/-- A sample pending execution of `job0`. -/
def exec0 : JobExecution :=
  { id := 1, jobId := 7, status := .pending, scheduledAt := 0, attempt := 1 }

/-- The task pairing `job0` with `exec0`. -/
def task0 : JobTask := { job := job0, execution := exec0 }

/-- The default scheduler configuration. -/
def cfg0 : SchedulerConfig := {}

/-- A cron parser that rejects every expression (the executor claims do
not exercise cron parsing). -/
def cronParse0 : String → Option CronSchedule := fun _ => none

/-- A sample JSON integer decoder defined on the two literals the
witnesses use. -/
def jsonInt0 : String → Option Int := fun s =>
  if s = "0" then some 0 else if s = "300" then some 300 else none

/-! Helper lemmas. -/

/-- A row that is in the table and has the looked-up id makes
`findExecution` succeed. -/
theorem findExecution_isSome_of_mem {db : List JobExecution} {e : JobExecution}
    {i : Nat} (he : e ∈ db) (hid : e.id = i) :
    ∃ e₀, findExecution db i = some e₀ := by
  induction db with
  | nil => cases he
  | cons a as ih =>
      by_cases ha : a.id = i
      · exact ⟨a, by simp [findExecution, ha]⟩
      · rcases List.mem_cons.mp he with rfl | htail
        · exact absurd hid ha
        · rcases ih htail with ⟨e₀, he₀⟩
          exact ⟨e₀, by simp [findExecution, ha, he₀]⟩

/-- A successful `findHistory` lookup returns a member of the table. -/
theorem findHistory_mem {hs : List JobHistory} {j : Nat} {d : Time}
    {h : JobHistory} (hf : findHistory hs j d = some h) : h ∈ hs := by
  induction hs with
  | nil => simp [findHistory] at hf
  | cons a as ih =>
      by_cases ha : a.jobId = j ∧ a.date = d
      · simp [findHistory, ha] at hf
        simp [hf]
      · simp [findHistory, ha] at hf
        exact List.mem_cons_of_mem a (ih hf)

/-! Claim C6 — worker panic handling. -/

/-- C6 (counterexample): the worker loop does not recover a panic.  A
task whose worker function panics terminates the loop with the panic
propagating (`Except.error`), the worker does not survive to drain the
second task, and no failure record is produced — refuting the claim that
the panic is recovered inside the worker loop. -/
theorem c6_panic_kills_worker_counterexample :
    workerRun (fun _ => Except.error "panic: boom") [task0, task0]
        = Except.error "panic: boom" ∧
    workerRun (fun _ => Except.error "panic: boom") [task0, task0]
        ≠ Except.ok () := by
  constructor
  · rfl
  · intro h
    simp [workerRun] at h

/-- C6 (amended): a panic raised by the worker function on the first
queued task propagates out of the worker loop — the loop returns the
panic instead of recovering it, and the remaining tasks are never
processed. -/
theorem c6_worker_panic_propagates (f : JobTask → Except String Unit)
    (t : JobTask) (ts : List JobTask) (msg : String)
    (h : f t = Except.error msg) :
    workerRun f (t :: ts) = Except.error msg := by
  simp [workerRun, h]

/-- C6 witness: the amended theorem applied to a concrete panicking
worker function. -/
theorem c6_worker_panic_witness :
    workerRun (fun _ => Except.error "boom") [task0] = Except.error "boom" :=
  c6_worker_panic_propagates (fun _ => Except.error "boom") task0 [] "boom" rfl

/-! Claim C7 — cleanup retention. -/

/-- C7 (counterexample): a `timeout` execution older than the cutoff is
NOT deleted by `CleanupOld`, although `timeout` is a terminal status and
the row's `created_at` (0) is before the cutoff (100) — the status list
in the source omits `timeout`. -/
theorem c7_timeout_survives_cleanup_counterexample :
    CleanupOld [{ id := 2, jobId := 7, status := .timeout, createdAt := 0 }] 100
        = [{ id := 2, jobId := 7, status := .timeout, createdAt := 0 }] ∧
    ((0 : Time) < 100) := by
  constructor
  · rfl
  · norm_num

/-- C7 (amended): cleanup deletes exactly the executions whose status is
`completed`, `failed` or `cancelled` and whose `created_at` is before the
cutoff `now - CleanupDays` days; rows in any other status — the
non-terminal `pending`, `running`, `retrying`, and also the terminal
`timeout` — are never deleted. -/
theorem c7_cleanup_deletes_exactly (db : List JobExecution) (now : Time)
    (days : Int) :
    (∀ e, e ∈ CleanupOld db (cleanupCutoff now days) ↔
        e ∈ db ∧ ¬(e.createdAt < cleanupCutoff now days ∧
          (e.status = .completed ∨ e.status = .failed ∨ e.status = .cancelled))) ∧
    (∀ e ∈ db,
        (e.status = .pending ∨ e.status = .running ∨ e.status = .retrying ∨
         e.status = .timeout) →
        e ∈ CleanupOld db (cleanupCutoff now days)) := by
  constructor
  · intro e
    simp only [CleanupOld, List.mem_filter, decide_eq_true_eq]
  · intro e he hst
    have hterm : ¬(e.createdAt < cleanupCutoff now days ∧
        (e.status = .completed ∨ e.status = .failed ∨ e.status = .cancelled)) := by
      rcases hst with h | h | h | h <;> simp [h]
    simp only [CleanupOld, List.mem_filter, decide_eq_true_eq]
    exact ⟨he, hterm⟩

/-- C7 witness: the amended theorem applied to a one-row table holding an
old pending execution, which survives cleanup. -/
theorem c7_cleanup_witness :
    ({ id := 2, jobId := 7, status := .pending, createdAt := 0 } : JobExecution) ∈
      CleanupOld [{ id := 2, jobId := 7, status := .pending, createdAt := 0 }]
        (cleanupCutoff 8640000 30) :=
  (c7_cleanup_deletes_exactly
      [{ id := 2, jobId := 7, status := .pending, createdAt := 0 }] 8640000 30).2
    { id := 2, jobId := 7, status := .pending, createdAt := 0 }
    (List.mem_singleton.mpr rfl) (Or.inl rfl)

/-! Claim C8 — the next-run calculator. -/

/-- C8: per job type, `CalculateNextRun` behaves as specified.  For
`interval` with a schedule decoding to an integer `N ≥ 1` it returns
`now + N` seconds; for `one_time` it returns nil; for `cron`, when the
parsed schedule's `Next` yields the first tick strictly after `now`
(the `robfig/cron` contract), the calculator returns exactly that first
tick; for any other type it returns an error. -/
theorem c8_calculateNextRun_per_type (cronParse : String → Option CronSchedule)
    (jsonIntUnmarshal : String → Option Int) (job : Job) (now : Time) :
    (job.jobType = "interval" →
      ∀ n, jsonIntUnmarshal job.schedule = some n → 1 ≤ n →
        CalculateNextRun cronParse jsonIntUnmarshal job now
          = Except.ok (some (now + n))) ∧
    (job.jobType = "one_time" →
        CalculateNextRun cronParse jsonIntUnmarshal job now = Except.ok none) ∧
    (job.jobType = "cron" →
      ∀ s, cronParse job.schedule = some s →
        ∀ fires : Time → Prop, IsFirstTickAfter fires now (s.next now) →
          ∃ t, CalculateNextRun cronParse jsonIntUnmarshal job now
                = Except.ok (some t) ∧ IsFirstTickAfter fires now t) ∧
    ((job.jobType ≠ "cron" ∧ job.jobType ≠ "interval" ∧ job.jobType ≠ "one_time") →
        ∃ msg, CalculateNextRun cronParse jsonIntUnmarshal job now
          = Except.error msg) := by
  refine ⟨?_, ?_, ?_, ?_⟩
  · intro ht n hn _
    simp [CalculateNextRun, ht, hn]
  · intro ht
    simp [CalculateNextRun, ht]
  · intro ht s hs fires hfirst
    exact ⟨s.next now, by simp [CalculateNextRun, ht, hs], hfirst⟩
  · rintro ⟨h1, h2, h3⟩
    refine ⟨"unknown job type: " ++ job.jobType, ?_⟩
    simp [CalculateNextRun, h1, h2, h3]

/-- C8 witness: the interval and one-time clauses of the theorem at
concrete inputs — schedule `"300"` at instant 5 yields 305, and a
one-time job has no next run. -/
theorem c8_calculateNextRun_witness :
    CalculateNextRun cronParse0 jsonInt0 job0 5 = Except.ok (some 305) ∧
    CalculateNextRun cronParse0 jsonInt0 { job0 with jobType := "one_time" } 5
      = Except.ok none := by
  constructor
  · exact (c8_calculateNextRun_per_type cronParse0 jsonInt0 job0 5).1 rfl 300 rfl
      (by norm_num)
  · exact (c8_calculateNextRun_per_type cronParse0 jsonInt0
      { job0 with jobType := "one_time" } 5).2.1 rfl

/-! Claim C9 — validation versus the calculator. -/

/-- C9 (counterexample): the schedule `"0"` for an `interval` job is
rejected by `validateSchedule` (`interval must be at least 1 second`)
but accepted by `CalculateNextRun`, which happily returns `now + 0` —
so validation does not reject exactly what the calculator rejects. -/
theorem c9_interval_zero_counterexample :
    exceptOk (validateSchedule cronParse0 jsonInt0 "interval" "0") = false ∧
    exceptOk (CalculateNextRun cronParse0 jsonInt0 { job0 with schedule := "0" } 5)
      = true ∧
    CalculateNextRun cronParse0 jsonInt0 { job0 with schedule := "0" } 5
      = Except.ok (some 5) := by
  refine ⟨rfl, rfl, rfl⟩

/-- C9 (amended): validation accepts a `(type, schedule)` pair iff the
next-run calculator accepts it AND the pair is not an `interval` whose
decoded integer is below 1 — the floor check `interval >= 1` exists only
in `validateSchedule`, not in `CalculateNextRun`. -/
theorem c9_validate_iff_calculator_plus_floor
    (cronParse : String → Option CronSchedule)
    (jsonIntUnmarshal : String → Option Int) (job : Job) (now : Time) :
    exceptOk (validateSchedule cronParse jsonIntUnmarshal job.jobType job.schedule)
        = true ↔
      (exceptOk (CalculateNextRun cronParse jsonIntUnmarshal job now) = true ∧
        ¬(job.jobType = "interval" ∧
          ∃ n, jsonIntUnmarshal job.schedule = some n ∧ n < 1)) := by
  by_cases h1 : job.jobType = "cron"
  · cases hcp : cronParse job.schedule <;>
      simp [validateSchedule, CalculateNextRun, exceptOk, h1, hcp]
  · by_cases h2 : job.jobType = "interval"
    · cases hj : jsonIntUnmarshal job.schedule with
      | none => simp [validateSchedule, CalculateNextRun, exceptOk, h1, h2, hj]
      | some n =>
          by_cases hn : n < 1 <;>
            simp [validateSchedule, CalculateNextRun, exceptOk, h1, h2, hj, hn]
    · by_cases h3 : job.jobType = "one_time" <;>
        simp [validateSchedule, CalculateNextRun, exceptOk, h1, h2, h3]

/-- C9 witness: the amended equivalence applied to the interval job with
schedule `"300"`, which both validation and the calculator accept. -/
theorem c9_validate_witness :
    exceptOk (validateSchedule cronParse0 jsonInt0 job0.jobType job0.schedule)
      = true :=
  (c9_validate_iff_calculator_plus_floor cronParse0 jsonInt0 job0 5).mpr
    ⟨rfl, by simp [jsonInt0, job0]⟩

/-! Claim C10 — IncrementFailure frame. -/

/-- A sample history row with one success and one failure on record. -/
def hist0 : JobHistory :=
  { id := 3, jobId := 7, date := 0, successCount := 2, failureCount := 1,
    totalDuration := 100, avgDuration := 50, minDuration := 40, maxDuration := 60 }

/-- C10: when the `(job_id, date)` history row exists, `IncrementFailure`
rewrites the table so that every row keeps its identity, its success
count and all four duration statistics, the found row's failure count
grows by exactly one, and no other row's failure count changes. -/
theorem c10_incrementFailure_frame (hs : List JobHistory) (jobId : Nat)
    (date : Time) (newId : Nat) (h : JobHistory)
    (hfind : findHistory hs jobId (dateOnly date) = some h) :
    (IncrementFailure hs jobId date newId).length = hs.length ∧
    (∀ x' ∈ IncrementFailure hs jobId date newId, ∃ x ∈ hs,
        x'.id = x.id ∧ x'.jobId = x.jobId ∧ x'.date = x.date ∧
        x'.successCount = x.successCount ∧
        x'.totalDuration = x.totalDuration ∧
        x'.avgDuration = x.avgDuration ∧
        x'.minDuration = x.minDuration ∧
        x'.maxDuration = x.maxDuration ∧
        x'.failureCount = x.failureCount + (if x.id = h.id then 1 else 0)) ∧
    (∃ x' ∈ IncrementFailure hs jobId date newId,
        x'.id = h.id ∧ x'.failureCount = h.failureCount + 1 ∧
        x'.successCount = h.successCount ∧
        x'.totalDuration = h.totalDuration ∧
        x'.avgDuration = h.avgDuration ∧
        x'.minDuration = h.minDuration ∧
        x'.maxDuration = h.maxDuration) := by
  have hmem : h ∈ hs := findHistory_mem hfind
  refine ⟨?_, ?_, ?_⟩
  · simp [IncrementFailure, hfind]
  · intro x' hx'
    simp only [IncrementFailure, hfind, List.mem_map] at hx'
    rcases hx' with ⟨x, hx, rfl⟩
    by_cases hid : x.id = h.id
    · exact ⟨x, hx, by simp [hid]⟩
    · exact ⟨x, hx, by simp [hid]⟩
  · refine ⟨{ h with failureCount := h.failureCount + 1 }, ?_, by simp⟩
    simp only [IncrementFailure, hfind]
    have := List.mem_map_of_mem
      (fun x => if x.id = h.id then { x with failureCount := x.failureCount + 1 }
                else x) hmem
    simpa using this

/-- C10 witness: the frame theorem applied to a concrete one-row table;
the length is preserved. -/
theorem c10_incrementFailure_witness :
    (IncrementFailure [hist0] 7 10 99).length = 1 :=
  (c10_incrementFailure_frame [hist0] 7 10 99 hist0 rfl).1

/-! Claim C2 — terminal statuses and the cancel path. -/

/-- A sample execution row already cancelled by the external cancel API. -/
def execCancelled : JobExecution :=
  { id := 1, jobId := 7, status := .cancelled, startedAt := some 1,
    completedAt := some 2, attempt := 1 }

/-- C2 (counterexample): `MarkAsCompleted` carries no status guard — on a
row already `cancelled` it succeeds and rewrites the status to
`completed`, overwriting the terminal state, contrary to the claim that
no subsequent operation changes a terminal status. -/
theorem c2_complete_overwrites_cancelled_counterexample :
    MarkAsCompleted [execCancelled] 1 200 "ok" 5
      = some [{ execCancelled with
                  status := .completed, completedAt := some 5,
                  duration := some 4000, statusCode := some 200,
                  response := "ok", updatedAt := 5 }] := by
  rfl

/-- C2 (amended): the conditional updates really are guarded —
`CancelExecution` leaves every row that is in neither `pending` nor
`running` (all terminal rows included) unchanged, and `MarkAsRunning`
leaves every non-pending row unchanged — but `MarkAsCompleted` and
`MarkAsFailed` update on the row id alone, so on a row in any status
(a cancelled row included) they succeed and overwrite the status with
`completed` respectively `failed`. -/
theorem c2_guards_and_overwrites (db : List JobExecution) (id : Nat)
    (now : Time) (workerId : String) (statusCode : Int) (response : String)
    (errMsg : String) (sc : Option Int) :
    (∀ e ∈ db, ¬(e.status = .pending ∨ e.status = .running) →
        e ∈ CancelExecution db id now) ∧
    (∀ e ∈ db, e.status ≠ .pending → e ∈ MarkAsRunning db id workerId now) ∧
    (∀ e ∈ db, e.id = id →
        ∃ db', MarkAsCompleted db id statusCode response now = some db' ∧
          ∃ e' ∈ db', e'.id = id ∧ e'.status = .completed) ∧
    (∀ e ∈ db, e.id = id →
        ∃ e' ∈ MarkAsFailed db id errMsg sc now,
          e'.id = id ∧ e'.status = .failed) := by
  refine ⟨?_, ?_, ?_, ?_⟩
  · intro e he hst
    have hfe : (if e.id = id ∧ (e.status = .pending ∨ e.status = .running)
        then { e with status := ExecStatus.cancelled, completedAt := some now,
                      updatedAt := now } else e) = e := by
      rw [if_neg]
      rintro ⟨-, hor⟩
      exact hst hor
    have hmem := List.mem_map_of_mem (fun x =>
      if x.id = id ∧ (x.status = .pending ∨ x.status = .running)
      then { x with status := ExecStatus.cancelled, completedAt := some now,
                    updatedAt := now } else x) he
    simpa only [CancelExecution, hfe] using hmem
  · intro e he hst
    have hfe : (if e.id = id ∧ e.status = .pending
        then { e with status := ExecStatus.running, startedAt := some now,
                      workerId := workerId, updatedAt := now } else e) = e := by
      rw [if_neg]
      rintro ⟨-, hp⟩
      exact hst hp
    have hmem := List.mem_map_of_mem (fun x =>
      if x.id = id ∧ x.status = .pending
      then { x with status := ExecStatus.running, startedAt := some now,
                    workerId := workerId, updatedAt := now } else x) he
    simpa only [MarkAsRunning, hfe] using hmem
  · intro e he hid
    rcases findExecution_isSome_of_mem he hid with ⟨e₀, hfind⟩
    refine ⟨db.map fun x =>
        if x.id = id then
          { x with status := ExecStatus.completed, completedAt := some now,
                   duration := some (durationMs e₀.startedAt now),
                   statusCode := some statusCode, response := response,
                   updatedAt := now }
        else x, by simp [MarkAsCompleted, hfind], ?_⟩
    refine ⟨{ e with
              status := .completed, completedAt := some now,
              duration := some (durationMs e₀.startedAt now),
              statusCode := some statusCode, response := response,
              updatedAt := now }, ?_, hid, rfl⟩
    have := List.mem_map_of_mem (fun x =>
      if x.id = id then
        { x with status := ExecStatus.completed, completedAt := some now,
                 duration := some (durationMs e₀.startedAt now),
                 statusCode := some statusCode, response := response,
                 updatedAt := now }
      else x) he
    simpa [hid] using this
  · intro e he hid
    rcases findExecution_isSome_of_mem he hid with ⟨e₀, hfind⟩
    simp only [MarkAsFailed, hfind]
    cases sc with
    | none =>
        refine ⟨{ e with
                  status := .failed, completedAt := some now,
                  duration := some (durationMs e₀.startedAt now),
                  errorMsg := errMsg, updatedAt := now }, ?_, hid, rfl⟩
        have := List.mem_map_of_mem (fun x =>
          if x.id = id then
            { x with status := ExecStatus.failed, completedAt := some now,
                     duration := some (durationMs e₀.startedAt now),
                     errorMsg := errMsg, updatedAt := now }
          else x) he
        simpa [hid] using this
    | some c =>
        refine ⟨{ e with
                  status := .failed, completedAt := some now,
                  duration := some (durationMs e₀.startedAt now),
                  errorMsg := errMsg, updatedAt := now,
                  statusCode := some c }, ?_, hid, rfl⟩
        have := List.mem_map_of_mem (fun x =>
          if x.id = id then
            { x with status := ExecStatus.failed, completedAt := some now,
                     duration := some (durationMs e₀.startedAt now),
                     errorMsg := errMsg, updatedAt := now,
                     statusCode := some c }
          else x) he
        simpa [hid] using this

/-- C2 witness: the guard clause of the amended theorem at a concrete
cancelled row — external cancel leaves it untouched. -/
theorem c2_guards_witness :
    execCancelled ∈ CancelExecution [execCancelled] 1 5 :=
  (c2_guards_and_overwrites [execCancelled] 1 5 "w" 200 "ok" "err" none).1
    execCancelled (List.mem_singleton.mpr rfl) (by decide)

/-! Further helper lemmas on the repository updates. -/

/-- A member of the table survives `MarkAsRunning` with its id and attempt
intact. -/
theorem mem_MarkAsRunning_of_mem (db : List JobExecution) (id : Nat)
    (workerId : String) (now : Time) {e : JobExecution} (he : e ∈ db) :
    ∃ e' ∈ MarkAsRunning db id workerId now, e'.id = e.id ∧ e'.attempt = e.attempt := by
  have hmem := List.mem_map_of_mem (fun x =>
    if x.id = id ∧ x.status = .pending
    then { x with status := ExecStatus.running, startedAt := some now,
                  workerId := workerId, updatedAt := now } else x) he
  by_cases h : e.id = id ∧ e.status = .pending
  · exact ⟨_, by simpa [MarkAsRunning, h] using hmem, by simp [h], by simp [h]⟩
  · exact ⟨e, by simpa [MarkAsRunning, h] using hmem, rfl, rfl⟩

/-- A member of the table with the updated id is rewritten to `retrying`
with its attempt bumped by `MarkAsRetrying`. -/
theorem mem_MarkAsRetrying_of_mem (db : List JobExecution) (id : Nat)
    (errMsg : String) (now : Time) {e : JobExecution} (he : e ∈ db)
    (hid : e.id = id) :
    ∃ e' ∈ MarkAsRetrying db id errMsg now,
      e'.id = e.id ∧ e'.status = .retrying ∧ e'.attempt = e.attempt + 1 := by
  have hmem := List.mem_map_of_mem (fun x =>
    if x.id = id
    then { x with status := ExecStatus.retrying, errorMsg := errMsg,
                  attempt := x.attempt + 1, updatedAt := now } else x) he
  exact ⟨_, by simpa [MarkAsRetrying] using hmem, by simp [hid], by simp [hid],
    by simp [hid]⟩

/-- A member of the table with the updated id is rewritten to `failed` by
`MarkAsFailed`. -/
theorem mem_MarkAsFailed_of_mem (db : List JobExecution) (id : Nat)
    (errMsg : String) (sc : Option Int) (now : Time) {e : JobExecution}
    (he : e ∈ db) (hid : e.id = id) :
    ∃ e' ∈ MarkAsFailed db id errMsg sc now,
      e'.id = e.id ∧ e'.status = .failed := by
  rcases findExecution_isSome_of_mem he hid with ⟨e₀, hfind⟩
  simp only [MarkAsFailed, hfind]
  cases sc with
  | none =>
      have hmem := List.mem_map_of_mem (fun x =>
        if x.id = id
        then { x with status := ExecStatus.failed, completedAt := some now,
                      duration := some (durationMs e₀.startedAt now),
                      errorMsg := errMsg, updatedAt := now } else x) he
      exact ⟨_, by simpa using hmem, by simp [hid], by simp [hid]⟩
  | some c =>
      have hmem := List.mem_map_of_mem (fun x =>
        if x.id = id
        then { x with status := ExecStatus.failed, completedAt := some now,
                      duration := some (durationMs e₀.startedAt now),
                      errorMsg := errMsg, updatedAt := now,
                      statusCode := some c } else x) he
      exact ⟨_, by simpa using hmem, by simp [hid], by simp [hid]⟩

/-! Claim C3 — lost pending-to-running race. -/

/-- An execution row already claimed by another worker (status is
`running`, not `pending`). -/
def execClaimed : JobExecution :=
  { id := 1, jobId := 7, status := .running, startedAt := some 1,
    workerId := "worker-other", attempt := 1 }

/-- The task for the already-claimed row, as carried by the late worker. -/
def taskClaimed : JobTask := { job := job0, execution := execClaimed }

/-- C3: evaluation of the code at the failing input.  The row is no
longer `pending` when `processJob` runs, so the conditional
`MarkAsRunning` matches zero rows — but GORM reports no error for a
zero-row update, the source checks only the error, and the worker does
NOT abandon: it performs the HTTP call (the `httpCall` effect) and then
`MarkAsCompleted` overwrites the row to `completed`, a further state
change to the execution. -/
theorem c3_lost_race_still_calls_http :
    (processJob cfg0 { jobs := [job0], executions := [execClaimed], histories := [] }
        taskClaimed "worker-x" (.response 200 "ok" 50) 5 99).2
      = [Effect.httpCall 7] ∧
    (processJob cfg0 { jobs := [job0], executions := [execClaimed], histories := [] }
        taskClaimed "worker-x" (.response 200 "ok" 50) 5 99).1.executions
      = [{ execClaimed with
           status := .completed, completedAt := some 5, duration := some 4000,
           statusCode := some 200, response := "ok", updatedAt := 5 }] := by
  exact ⟨rfl, rfl⟩

/-! Claim C1 — non-retryable 4xx responses are still retried. -/

/-- C1 (counterexample): a 404 response on attempt 1 of a job with
`max_retries` 3 leaves the execution `retrying` with a retry scheduled —
not `failed` immediately with no retry as the claim states. -/
theorem c1_404_marks_retrying_counterexample :
    (processJob cfg0 { jobs := [job0], executions := [exec0], histories := [] } task0 "w"
        (.response 404 "nf" 20) 5 99).1.executions
      = [{ exec0 with
           status := .retrying, startedAt := some 5, workerId := "w",
           errorMsg := httpErrorText 404, attempt := 2, updatedAt := 5 }] ∧
    (processJob cfg0 { jobs := [job0], executions := [exec0], histories := [] } task0 "w"
        (.response 404 "nf" 20) 5 99).2
      = [Effect.httpCall 7, Effect.scheduleRetry 60 2] := by
  exact ⟨rfl, rfl⟩

/-- C1 (amended): for a response with status in 400-499 other than 429
the executor's `isRetryable` classifies the result non-retryable, but the
scheduler's failure path never consults that classification: whenever the
attempt count is below `max_retries` the execution is marked `retrying`
(not `failed`) and a delayed resubmission is scheduled; it transitions to
`failed` only once the attempts are exhausted. -/
theorem c1_4xx_retried_below_max (cfg : SchedulerConfig) (st : St)
    (task : JobTask) (workerId : String) (now : Time) (newHistId : Nat)
    (code : Int) (body : String) (dur : Int)
    (h400 : 400 ≤ code) (h499 : code ≤ 499) (h429 : code ≠ 429)
    (hlt : task.execution.attempt < task.job.maxRetries) :
    isRetryable (some (executeClassify (.response code body dur)).1) = false ∧
    (processJob cfg st task workerId (.response code body dur) now newHistId).2
      = [Effect.httpCall task.job.id,
         Effect.scheduleRetry cfg.retryDelaySeconds (task.execution.attempt + 1)] ∧
    (∀ e ∈ st.executions, e.id = task.execution.id →
      ∃ e' ∈ (processJob cfg st task workerId
          (.response code body dur) now newHistId).1.executions,
        e'.id = e.id ∧ e'.status = .retrying ∧ e'.attempt = e.attempt + 1) := by
  have h500 : ¬(500 ≤ code) := by omega
  refine ⟨?_, ?_, ?_⟩
  · simp [isRetryable, executeClassify, h400, h500, h429]
  · simp [processJob, executeClassify, handleExecutionFailure, h400, hlt]
  · intro e he hid
    have hred :
        (processJob cfg st task workerId (.response code body dur) now newHistId).1.executions
          = MarkAsRetrying
              (MarkAsRunning st.executions task.execution.id workerId now)
              task.execution.id (httpErrorText code) now := by
      simp [processJob, executeClassify, handleExecutionFailure, h400, hlt]
    rcases mem_MarkAsRunning_of_mem st.executions task.execution.id workerId now he
      with ⟨e1, he1, hid1, hatt1⟩
    rcases mem_MarkAsRetrying_of_mem _ task.execution.id (httpErrorText code) now he1
      (hid1.trans hid) with ⟨e2, he2, hid2, hst2, hatt2⟩
    refine ⟨e2, ?_, hid2.trans hid1, hst2, by rw [hatt2, hatt1]⟩
    rw [hred]
    exact he2

/-- C1 witness: the amended theorem applied to a concrete 404 response on
attempt 1 with three retries allowed. -/
theorem c1_4xx_retried_witness :
    (processJob cfg0 { jobs := [job0], executions := [exec0], histories := [] }
        task0 "w" (.response 404 "nf" 20) 5 99).2
      = [Effect.httpCall task0.job.id,
         Effect.scheduleRetry cfg0.retryDelaySeconds (task0.execution.attempt + 1)] :=
  (c1_4xx_retried_below_max cfg0
    { jobs := [job0], executions := [exec0], histories := [] } task0 "w" 5 99
    404 "nf" 20 (by decide) (by decide) (by decide) (by decide)).2.1

/-! Claim C4 — the per-attempt deadline and the `timeout` status. -/

/-- Rows rewritten by `MarkAsRunning` are never given the `timeout`
status; a `timeout` row in the output was already `timeout` in the
input. -/
theorem timeout_origin_MarkAsRunning (db : List JobExecution) (id : Nat)
    (workerId : String) (now : Time) :
    ∀ e' ∈ MarkAsRunning db id workerId now, e'.status = .timeout →
      ∃ e ∈ db, e.id = e'.id ∧ e.status = .timeout := by
  intro e' he' ht
  rcases List.mem_map.mp he' with ⟨e, hmem, rfl⟩
  by_cases h : e.id = id ∧ e.status = .pending
  · simp [h] at ht
  · simp [h] at ht ⊢
    exact ⟨e, hmem, rfl, ht⟩

/-- Rows rewritten by `MarkAsRetrying` are never given the `timeout`
status. -/
theorem timeout_origin_MarkAsRetrying (db : List JobExecution) (id : Nat)
    (errMsg : String) (now : Time) :
    ∀ e' ∈ MarkAsRetrying db id errMsg now, e'.status = .timeout →
      ∃ e ∈ db, e.id = e'.id ∧ e.status = .timeout := by
  intro e' he' ht
  rcases List.mem_map.mp he' with ⟨e, hmem, rfl⟩
  by_cases h : e.id = id
  · simp [h] at ht
  · simp [h] at ht ⊢
    exact ⟨e, hmem, rfl, ht⟩

/-- Rows rewritten by `MarkAsFailed` are never given the `timeout`
status. -/
theorem timeout_origin_MarkAsFailed (db : List JobExecution) (id : Nat)
    (errMsg : String) (sc : Option Int) (now : Time) :
    ∀ e' ∈ MarkAsFailed db id errMsg sc now, e'.status = .timeout →
      ∃ e ∈ db, e.id = e'.id ∧ e.status = .timeout := by
  intro e' he' ht
  unfold MarkAsFailed at he'
  cases hf : findExecution db id with
  | none =>
      rw [hf] at he'
      exact ⟨e', he', rfl, ht⟩
  | some e₀ =>
      rw [hf] at he'
      rcases List.mem_map.mp he' with ⟨e, hmem, rfl⟩
      by_cases h : e.id = id
      · exfalso
        cases sc <;> simp [h] at ht
      · simp [h] at ht ⊢
        exact ⟨e, hmem, rfl, ht⟩

/-- Rows rewritten by a successful `MarkAsCompleted` are never given the
`timeout` status. -/
theorem timeout_origin_MarkAsCompleted (db : List JobExecution) (id : Nat)
    (statusCode : Int) (response : String) (now : Time)
    (exs : List JobExecution)
    (hc : MarkAsCompleted db id statusCode response now = some exs) :
    ∀ e' ∈ exs, e'.status = .timeout →
      ∃ e ∈ db, e.id = e'.id ∧ e.status = .timeout := by
  intro e' he' ht
  unfold MarkAsCompleted at hc
  cases hf : findExecution db id with
  | none => rw [hf] at hc; cases hc
  | some e₀ =>
      rw [hf] at hc
      cases hc
      rcases List.mem_map.mp he' with ⟨e, hmem, rfl⟩
      by_cases h : e.id = id
      · simp [h] at ht
      · simp [h] at ht ⊢
        exact ⟨e, hmem, rfl, ht⟩

/-- C4 (amended): the scheduler never assigns the `timeout` status — a
`timeout` row after `processJob` was already `timeout` before — and an
elapsed per-attempt deadline, surfacing as a transport error of the HTTP
call, is handled like any other failure: the execution becomes
`retrying` when the attempt count is below `max_retries` and `failed`
otherwise (with failure accounting), never `timeout`. -/
theorem c4_deadline_failure_not_timeout (cfg : SchedulerConfig) (st : St)
    (task : JobTask) (workerId : String) (outcome : HttpOutcome) (now : Time)
    (newHistId : Nat) :
    (∀ e' ∈ (processJob cfg st task workerId outcome now newHistId).1.executions,
        e'.status = .timeout →
          ∃ e ∈ st.executions, e.id = e'.id ∧ e.status = .timeout) ∧
    (∀ msg dur, outcome = HttpOutcome.transport msg dur →
      ∀ e ∈ st.executions, e.id = task.execution.id →
        ∃ e' ∈ (processJob cfg st task workerId outcome now newHistId).1.executions,
          e'.id = e.id ∧
          e'.status = (if task.execution.attempt < task.job.maxRetries
                       then ExecStatus.retrying else ExecStatus.failed)) := by
  constructor
  · intro e' he' ht
    cases outcome with
    | transport msg dur =>
        by_cases hlt : task.execution.attempt < task.job.maxRetries
        · simp only [processJob, executeClassify, handleExecutionFailure,
            if_pos hlt] at he'
          rcases timeout_origin_MarkAsRetrying _ _ _ _ e' he' ht with
            ⟨e1, he1, hid1, ht1⟩
          rcases timeout_origin_MarkAsRunning _ _ _ _ e1 he1 ht1 with
            ⟨e0, he0, hid0, ht0⟩
          exact ⟨e0, he0, hid0.trans hid1, ht0⟩
        · simp only [processJob, executeClassify, handleExecutionFailure,
            if_neg hlt] at he'
          rcases timeout_origin_MarkAsFailed _ _ _ _ _ e' he' ht with
            ⟨e1, he1, hid1, ht1⟩
          rcases timeout_origin_MarkAsRunning _ _ _ _ e1 he1 ht1 with
            ⟨e0, he0, hid0, ht0⟩
          exact ⟨e0, he0, hid0.trans hid1, ht0⟩
    | response code body dur =>
        by_cases hc : code ≥ 400
        · by_cases hlt : task.execution.attempt < task.job.maxRetries
          · simp only [processJob, executeClassify, handleExecutionFailure,
              if_pos hc, if_pos hlt] at he'
            rcases timeout_origin_MarkAsRetrying _ _ _ _ e' he' ht with
              ⟨e1, he1, hid1, ht1⟩
            rcases timeout_origin_MarkAsRunning _ _ _ _ e1 he1 ht1 with
              ⟨e0, he0, hid0, ht0⟩
            exact ⟨e0, he0, hid0.trans hid1, ht0⟩
          · simp only [processJob, executeClassify, handleExecutionFailure,
              if_pos hc, if_neg hlt] at he'
            rcases timeout_origin_MarkAsFailed _ _ _ _ _ e' he' ht with
              ⟨e1, he1, hid1, ht1⟩
            rcases timeout_origin_MarkAsRunning _ _ _ _ e1 he1 ht1 with
              ⟨e0, he0, hid0, ht0⟩
            exact ⟨e0, he0, hid0.trans hid1, ht0⟩
        · simp only [processJob, executeClassify, if_neg hc] at he'
          cases hmc : MarkAsCompleted
              (MarkAsRunning st.executions task.execution.id workerId now)
              task.execution.id code body now with
          | none =>
              rw [hmc] at he'
              simp only at he'
              rcases timeout_origin_MarkAsRunning _ _ _ _ e' he' ht with
                ⟨e0, he0, hid0, ht0⟩
              exact ⟨e0, he0, hid0, ht0⟩
          | some exs =>
              rw [hmc] at he'
              simp only at he'
              rcases timeout_origin_MarkAsCompleted _ _ _ _ _ _ hmc e' he' ht with
                ⟨e1, he1, hid1, ht1⟩
              rcases timeout_origin_MarkAsRunning _ _ _ _ e1 he1 ht1 with
                ⟨e0, he0, hid0, ht0⟩
              exact ⟨e0, he0, hid0.trans hid1, ht0⟩
  · rintro msg dur rfl e he hid
    by_cases hlt : task.execution.attempt < task.job.maxRetries
    · have hred :
          (processJob cfg st task workerId (.transport msg dur) now newHistId).1.executions
            = MarkAsRetrying
                (MarkAsRunning st.executions task.execution.id workerId now)
                task.execution.id msg now := by
        simp [processJob, executeClassify, handleExecutionFailure, hlt]
      rcases mem_MarkAsRunning_of_mem st.executions task.execution.id workerId now he
        with ⟨e1, he1, hid1, _⟩
      rcases mem_MarkAsRetrying_of_mem _ task.execution.id msg now he1
        (hid1.trans hid) with ⟨e2, he2, hid2, hst2, _⟩
      refine ⟨e2, ?_, hid2.trans hid1, by simp [hlt, hst2]⟩
      rw [hred]
      exact he2
    · have hred :
          (processJob cfg st task workerId (.transport msg dur) now newHistId).1.executions
            = MarkAsFailed
                (MarkAsRunning st.executions task.execution.id workerId now)
                task.execution.id msg (some 0) now := by
        simp [processJob, executeClassify, handleExecutionFailure, hlt]
      rcases mem_MarkAsRunning_of_mem st.executions task.execution.id workerId now he
        with ⟨e1, he1, hid1, _⟩
      rcases mem_MarkAsFailed_of_mem _ task.execution.id msg (some 0) now he1
        (hid1.trans hid) with ⟨e2, he2, hid2, hst2⟩
      refine ⟨e2, ?_, hid2.trans hid1, by simp [hlt, hst2]⟩
      rw [hred]
      exact he2

/-- An execution already on its final permitted attempt
(`attempt = max_retries = 3`). -/
def execLastAttempt : JobExecution :=
  { id := 1, jobId := 7, status := .pending, attempt := 3 }

/-- The task pairing `job0` with its final-attempt execution. -/
def taskLastAttempt : JobTask := { job := job0, execution := execLastAttempt }

/-- C4 (counterexample): an elapsed per-attempt deadline (the context
deadline surfacing as a transport error of the HTTP call) on the final
attempt marks the execution `failed`, not `timeout` — no code path
assigns the `timeout` status. -/
theorem c4_deadline_marks_failed_counterexample :
    (processJob cfg0 { jobs := [job0], executions := [execLastAttempt], histories := [] }
        taskLastAttempt "w" (.transport "context deadline exceeded" 2000) 5 99).1.executions
      = [{ execLastAttempt with
           status := .failed, startedAt := some 5, workerId := "w",
           completedAt := some 5, duration := some 0,
           errorMsg := "context deadline exceeded", statusCode := some 0,
           updatedAt := 5 }] ∧
    ExecStatus.failed ≠ ExecStatus.timeout := by
  exact ⟨rfl, by decide⟩

/-- C4 witness: the amended theorem applied to a concrete deadline
failure on attempt 1 — the execution is marked `retrying`. -/
theorem c4_deadline_witness :
    ∃ e' ∈ (processJob cfg0 { jobs := [job0], executions := [exec0], histories := [] }
        task0 "w" (.transport "context deadline exceeded" 2000) 5 99).1.executions,
      e'.id = exec0.id ∧
      e'.status = (if task0.execution.attempt < task0.job.maxRetries
                   then ExecStatus.retrying else ExecStatus.failed) :=
  (c4_deadline_failure_not_timeout cfg0
      { jobs := [job0], executions := [exec0], histories := [] } task0 "w"
      (.transport "context deadline exceeded" 2000) 5 99).2
    "context deadline exceeded" 2000 rfl exec0 (List.mem_singleton.mpr rfl) rfl

/-! Claim C5 — history duration statistics. -/

/-- A history row satisfying the claimed invariant
`avg = total / success_count` (100 = 100/1) that also has one recorded
failure. -/
def hist1 : JobHistory :=
  { id := 3, jobId := 7, date := 0, successCount := 1, failureCount := 1,
    totalDuration := 100, avgDuration := 100, minDuration := 100, maxDuration := 100 }

/-- A history row with no recorded failures. -/
def hist2 : JobHistory :=
  { id := 4, jobId := 7, date := 0, successCount := 1, failureCount := 0,
    totalDuration := 100, avgDuration := 100, minDuration := 100, maxDuration := 100 }

/-- C5 (counterexample): `IncrementSuccess` does not preserve
`avg = total / success_count`.  On a row with one success and one failure
that satisfies the invariant, recording a second 100 ms success sets
`avg = 200/3` (the code divides by `success_count + failure_count`),
while `total / success_count = 200/2 = 100`. -/
theorem c5_avg_not_total_over_success_counterexample :
    hist1.avgDuration = (hist1.totalDuration : ℚ) / (hist1.successCount : ℚ) ∧
    0 < hist1.successCount ∧
    ∃ h' ∈ IncrementSuccess [hist1] 7 0 100 99,
      0 < h'.successCount ∧
      h'.avgDuration ≠ (h'.totalDuration : ℚ) / (h'.successCount : ℚ) := by
  have hcomp : IncrementSuccess [hist1] 7 0 100 99
      = [{ hist1 with
           successCount := 2, totalDuration := 200,
           avgDuration := 200/3 }] := by
    simp [IncrementSuccess, findHistory, dateOnly, hist1]
  refine ⟨by norm_num [hist1], by norm_num [hist1],
    { hist1 with successCount := 2, totalDuration := 200, avgDuration := 200/3 },
    ?_, by norm_num [hist1], ?_⟩
  · rw [hcomp]
    exact List.mem_singleton.mpr rfl
  · norm_num [hist1]

/-- C5 (amended): on an existing `(job_id, date)` row, `IncrementSuccess`
adds one to the success count, folds the new successful duration into the
total and the min/max (the failure count untouched), and sets
`avg = total / (success_count + failure_count)` — which equals the
spec's `total / success_count` only when the row has no recorded
failures; on a missing row it inserts counts and durations from the
single success but leaves `avg` at the Go zero value 0. -/
theorem c5_incrementSuccess_equations (hs : List JobHistory) (jobId : Nat)
    (date : Time) (duration : Int) (newId : Nat) :
    (∀ h, findHistory hs jobId (dateOnly date) = some h →
      ∃ h' ∈ IncrementSuccess hs jobId date duration newId,
        h'.id = h.id ∧
        h'.successCount = h.successCount + 1 ∧
        h'.failureCount = h.failureCount ∧
        h'.totalDuration = h.totalDuration + duration ∧
        h'.avgDuration = ((h.totalDuration + duration : Int) : ℚ) /
          ((h.successCount + 1 + h.failureCount : Int) : ℚ) ∧
        (h.failureCount = 0 →
          h'.avgDuration = (h'.totalDuration : ℚ) / (h'.successCount : ℚ)) ∧
        h'.minDuration = (if duration < h.minDuration ∨ h.minDuration = 0
                          then duration else h.minDuration) ∧
        h'.maxDuration = (if duration > h.maxDuration
                          then duration else h.maxDuration)) ∧
    (findHistory hs jobId (dateOnly date) = none →
      IncrementSuccess hs jobId date duration newId
        = hs ++ [{ id := newId, jobId := jobId, date := dateOnly date,
                   successCount := 1, failureCount := 0,
                   totalDuration := duration, avgDuration := 0,
                   minDuration := duration, maxDuration := duration }]) := by
  constructor
  · intro h hf
    have hmem := findHistory_mem hf
    refine ⟨{ h with
              successCount := h.successCount + 1,
              totalDuration := h.totalDuration + duration,
              avgDuration := ((h.totalDuration + duration : Int) : ℚ) /
                ((h.successCount + 1 + h.failureCount : Int) : ℚ),
              minDuration := if duration < h.minDuration ∨ h.minDuration = 0
                             then duration else h.minDuration,
              maxDuration := if duration > h.maxDuration
                             then duration else h.maxDuration },
      ?_, rfl, rfl, rfl, rfl, rfl, ?_, rfl, rfl⟩
    · have hmm := List.mem_map_of_mem (fun x =>
        if x.id = h.id then
          { x with
            successCount := h.successCount + 1,
            totalDuration := h.totalDuration + duration,
            avgDuration := ((h.totalDuration + duration : Int) : ℚ) /
              ((h.successCount + 1 + h.failureCount : Int) : ℚ),
            minDuration := if duration < h.minDuration ∨ h.minDuration = 0
                           then duration else h.minDuration,
            maxDuration := if duration > h.maxDuration
                           then duration else h.maxDuration }
        else x) hmem
      simp only [IncrementSuccess, hf]
      simpa using hmm
    · intro hf0
      simp only [hf0]
      push_cast
      ring_nf
  · intro hf
    simp [IncrementSuccess, hf]

/-- C5 witness: the amended theorem applied to a failure-free row — there
the updated average does equal `total / success_count`. -/
theorem c5_incrementSuccess_witness :
    ∃ h' ∈ IncrementSuccess [hist2] 7 0 100 99,
      h'.id = hist2.id ∧
      h'.successCount = hist2.successCount + 1 ∧
      h'.failureCount = hist2.failureCount ∧
      h'.totalDuration = hist2.totalDuration + 100 ∧
      h'.avgDuration = ((hist2.totalDuration + 100 : Int) : ℚ) /
        ((hist2.successCount + 1 + hist2.failureCount : Int) : ℚ) ∧
      (hist2.failureCount = 0 →
        h'.avgDuration = (h'.totalDuration : ℚ) / (h'.successCount : ℚ)) ∧
      h'.minDuration = (if (100:Int) < hist2.minDuration ∨ hist2.minDuration = 0
                        then (100:Int) else hist2.minDuration) ∧
      h'.maxDuration = (if (100:Int) > hist2.maxDuration
                        then (100:Int) else hist2.maxDuration) :=
  (c5_incrementSuccess_equations [hist2] 7 0 100 99).1 hist2 rfl

end MinisourceScheduler
